import Mathlib

/-!
Verification of the BWP codec (tools/python/bwp_codec.py) and the GWT
surface extractor (tools/python/analyze_decoded.py).

Modelling conventions: a Python str is a list of natural-number code
points; a Python bytes value is a list of naturals below 256.  Python
integers are `Int`; the expression `x & 0xFFFF` on a Python int is
`x % 65536` on `Int` (both give the nonnegative remainder, 65536 being a
power of two).  Code that can raise an exception is modelled in
`Except PyErr`.
-/

deriving instance DecidableEq for Except

namespace BWP

/-- Python runtime errors that the codec can raise. -/
inductive PyErr where
  | indexError : PyErr
  | zeroDivisionError : PyErr
deriving DecidableEq, Repr

/-- Dataclass BWPMessage from bwp_codec.py. -/
structure BWPMessage where
  raw : List Nat
  is_encoded : Bool
  keys : List Int
  decoded : List Nat
  header_length : Int
deriving DecidableEq, Repr

/-- MARKER = 0xA4. -/
def MARKER : Nat := 164

/-- Method is_bwp on a str argument: len(data) > 0 and ord(data[0]) == MARKER. -/
def is_bwp : List Nat → Bool
  | [] => false
  | c :: _ => c == MARKER

/-- Method is_bwp on a bytes argument: len(data) > 0 and data[0] == MARKER. -/
def is_bwp_bytes : List Nat → Bool
  | [] => false
  | b :: _ => b == MARKER

/-- Python slicing data[i:] where the start index is a Python int that may
be negative (a negative start counts from the end, clamped at 0). -/
def pySliceFrom (l : List Nat) (i : Int) : List Nat :=
  if 0 ≤ i then l.drop i.toNat else l.drop ((l.length : Int) + i).toNat

/-- Key-collection loop of decode: for i in range(key_count) the value
ord(data[2+i]) - 48 - (i % 11) is appended; an out-of-range access of
data[2+i] raises IndexError.  The first argument of the recursion is the
loop index i, the second the number of keys still to read. -/
def readKeysAux (data : List Nat) : Nat → Nat → Except PyErr (List Int)
  | _, 0 => Except.ok []
  | i, n + 1 =>
    match data.get? (2 + i) with
    | none => Except.error PyErr.indexError
    | some c =>
      match readKeysAux data (i + 1) n with
      | Except.error e => Except.error e
      | Except.ok rest =>
          Except.ok (((c : Int) - 48 - ((i % 11 : Nat) : Int)) :: rest)

/-- Body loop of decode at position i: each code unit becomes
(ord(char) - keys[i % len(keys)] + (i % 17)) & 0xFFFF.  When the key list
is empty Python raises ZeroDivisionError before the first lookup; that
case is guarded in `decode` itself, so here the lookup is total. -/
def decodeBodyAux (keys : List Int) : Nat → List Nat → List Nat
  | _, [] => []
  | i, c :: rest =>
      (((c : Int) - keys.getD (i % keys.length) 0 + ((i % 17 : Nat) : Int)) % 65536).toNat
        :: decodeBodyAux keys (i + 1) rest

/-- Method decode on a str argument.  Marker absent (or empty input) is a
pass-through; reading data[1] or data[2+i] past the end raises IndexError;
an empty recovered key list with a non-empty body raises ZeroDivisionError
at the first body lookup. -/
def decode (data : List Nat) : Except PyErr BWPMessage :=
  if data.head? ≠ some MARKER then
    Except.ok ⟨data, false, [], data, 0⟩
  else
    match data.get? 1 with
    | none => Except.error PyErr.indexError
    | some c1 =>
      let key_count : Int := (c1 : Int) - 48
      match readKeysAux data 0 key_count.toNat with
      | Except.error e => Except.error e
      | Except.ok keys =>
        let header_length : Int := 2 + key_count
        let body := pySliceFrom data header_length
        if body ≠ [] ∧ keys = [] then Except.error PyErr.zeroDivisionError
        else Except.ok ⟨data, true, keys, decodeBodyAux keys 0 body, header_length⟩

/-- Key-header loop of encode: chr((48 + key + (i % 11)) & 0xFFFF). -/
def encodeKeysAux : Nat → List Int → List Nat
  | _, [] => []
  | i, k :: rest =>
      ((48 + k + ((i % 11 : Nat) : Int)) % 65536).toNat :: encodeKeysAux (i + 1) rest

/-- Body loop of encode at position i: chr((ord(char) + keys[i % len(keys)]
- (i % 17)) & 0xFFFF). -/
def encodeBodyAux (keys : List Int) : Nat → List Nat → List Nat
  | _, [] => []
  | i, c :: rest =>
      (((c : Int) + keys.getD (i % keys.length) 0 - ((i % 17 : Nat) : Int)) % 65536).toNat
        :: encodeBodyAux keys (i + 1) rest

/-- Method encode with a caller-supplied key list (the random generation
branch for keys=None is not modelled; every claim supplies keys).  Empty
input is returned unchanged before any key access; an empty key list with
non-empty input hits keys[i % 0] in the body loop, a ZeroDivisionError. -/
def encode (data : List Nat) (keys : List Int) : Except PyErr (List Nat) :=
  if data = [] then Except.ok data
  else if keys = [] then Except.error PyErr.zeroDivisionError
  else Except.ok (MARKER :: ((48 + (keys.length : Int)) % 65536).toNat
        :: (encodeKeysAux 0 keys ++ encodeBodyAux keys 0 data))

/-- Dict returned by BWPCodec.analyze; a key absent from the dict is `none`.
The is_bwp and length entries are always present, so they are plain values. -/
structure AnalyzeReport where
  is_bwp : Bool
  length : Nat
  key_count : Option Nat
  keys : Option (List Int)
  header_length : Option Int
  body_length : Option Int
  decoded_length : Option Nat
  decoded_preview : Option (List Nat)
  decode_success : Option Bool
  decode_error : Option PyErr
deriving DecidableEq, Repr

/-- Method analyze on a str argument.  The decode call is the first
statement inside the try block, so when it raises, only decode_error and
decode_success are added to the two always-present entries; the except
clause catches every PyErr, so analyze itself is total. -/
def analyze (data : List Nat) : AnalyzeReport :=
  if is_bwp data then
    match decode data with
    | Except.ok msg =>
        ⟨true, data.length, some msg.keys.length, some msg.keys, some msg.header_length,
          some ((data.length : Int) - msg.header_length), some msg.decoded.length,
          some (msg.decoded.take 500), some true, none⟩
    | Except.error e =>
        ⟨true, data.length, none, none, none, none, none, none, some false, some e⟩
  else ⟨false, data.length, none, none, none, none, none, none, none, none⟩

/-- Code points of a Lean string literal, for writing concrete inputs. -/
def strCodes (s : String) : List Nat := s.data.map Char.toNat

/-- Continuation-byte test for UTF-8 (0x80 to 0xBF). -/
def isCont (b : Nat) : Bool := 128 ≤ b && b < 192

/-- Python bytes.decode with encoding utf-8 and errors of kind replace: a
standard UTF-8 decode in which each maximal valid prefix of an invalid
sequence is replaced by one U+FFFD (65533) and decoding resumes at the
first offending byte.  Leads C0/C1 and F5 upward, surrogate encodings
(ED A0 and above) and overlong forms (E0 with continuation below A0, F0
with continuation below 90) are invalid, as in CPython. -/
def utf8DecodeReplace : List Nat → List Nat
  | [] => []
  | b :: rest =>
    if b < 128 then b :: utf8DecodeReplace rest
    else if b < 194 then 65533 :: utf8DecodeReplace rest
    else if b < 224 then
      match rest with
      | [] => [65533]
      | b1 :: rest1 =>
          if isCont b1 then ((b - 192) * 64 + (b1 - 128)) :: utf8DecodeReplace rest1
          else 65533 :: utf8DecodeReplace (b1 :: rest1)
    else if b < 240 then
      match rest with
      | [] => [65533]
      | b1 :: rest1 =>
        if (b == 224 && 160 ≤ b1 && b1 < 192) || (224 < b && b < 237 && isCont b1)
            || (b == 237 && 128 ≤ b1 && b1 < 160) || (237 < b && isCont b1) then
          match rest1 with
          | [] => [65533]
          | b2 :: rest2 =>
              if isCont b2 then
                ((b - 224) * 4096 + (b1 - 128) * 64 + (b2 - 128)) :: utf8DecodeReplace rest2
              else 65533 :: utf8DecodeReplace (b2 :: rest2)
        else 65533 :: utf8DecodeReplace (b1 :: rest1)
    else if b < 245 then
      match rest with
      | [] => [65533]
      | b1 :: rest1 =>
        if (b == 240 && 144 ≤ b1 && b1 < 192) || (240 < b && b < 244 && isCont b1)
            || (b == 244 && 128 ≤ b1 && b1 < 144) then
          match rest1 with
          | [] => [65533]
          | b2 :: rest2 =>
            if isCont b2 then
              match rest2 with
              | [] => [65533]
              | b3 :: rest3 =>
                if isCont b3 then
                  ((b - 240) * 262144 + (b1 - 128) * 4096 + (b2 - 128) * 64 + (b3 - 128))
                    :: utf8DecodeReplace rest3
                else 65533 :: utf8DecodeReplace (b3 :: rest3)
            else 65533 :: utf8DecodeReplace (b2 :: rest2)
        else 65533 :: utf8DecodeReplace (b1 :: rest1)
    else 65533 :: utf8DecodeReplace rest
termination_by l => l.length
decreasing_by all_goals simp [List.length_cons] <;> omega

/-- Method decode on a bytes argument: the bytes are first converted with
data.decode("utf-8", errors="replace"), then decoded as a str. -/
def decode_bytes (b : List Nat) : Except PyErr BWPMessage :=
  decode (utf8DecodeReplace b)

/-- Matches of the regular expression QUOTE CAPTURE QUOTE (pattern
34, any non-34 run, 34) used by extract_gwt_info, computed from the chunks
between successive quote characters: after cutting the text at every
quote and dropping the part before the first quote, every other chunk
whose closing quote exists (witnessed by a further chunk) is a match. -/
def quotedChunks : List (List Nat) → List (List Nat)
  | lit :: _ :: rest => lit :: quotedChunks rest
  | _ => []

/-- Variable strings in extract_gwt_info: every double-quoted literal of
the decoded text, in order. -/
def quotedLiterals (text : List Nat) : List (List Nat) :=
  quotedChunks ((text.splitOn 34).drop 1)

/-- Verb roots tested by extract_gwt_info when building the methods list:
get, load, find, save, connect, subscribe, init, recherche, charger, lire. -/
def verbRoots : List (List Nat) :=
  [strCodes "get", strCodes "load", strCodes "find", strCodes "save",
   strCodes "connect", strCodes "subscribe", strCodes "init",
   strCodes "recherche", strCodes "charger", strCodes "lire"]

/-- Filter of the methods list comprehension in extract_gwt_info: the
literal is truthy (non-empty) and starts with one of the verb roots. -/
def methodCandidate (s : List Nat) : Bool :=
  !s.isEmpty && verbRoots.any (fun v => v.isPrefixOf s)

/-- Optional method entry of the info dict returned by extract_gwt_info:
methods[0] when the filtered list is non-empty, absent otherwise. -/
def methodField (text : List Nat) : Option (List Nat) :=
  ((quotedLiterals text).filter methodCandidate).head?

/-- Verb roots as the spec claim states them: the implemented ten plus set. -/
def specVerbRoots : List (List Nat) := strCodes "set" :: verbRoots

/-- Known namespace roots named by the spec claim (vendor package root and
the Java standard root appearing in the decoded payloads). -/
def specNamespaceRoots : List (List Nat) := [strCodes "com.bodet", strCodes "java."]

/-- Method rule written from the spec claim: first literal shorter than 30
characters, not prefixed by a known namespace root, starting with a
configured verb. -/
def specMethodRule (s : List Nat) : Bool :=
  decide (s.length < 30) && !(specNamespaceRoots.any (fun v => v.isPrefixOf s))
    && specVerbRoots.any (fun v => v.isPrefixOf s)

/-- Method extraction as the spec claim describes it, for comparison with
the implemented methodField. -/
def specMethodField (text : List Nat) : Option (List Nat) :=
  (quotedLiterals text).find? specMethodRule

/-- Bounds under which one encoded key survives the 16-bit mask: the
header code unit 48 + key + (i % 11) is already in the 16-bit range. -/
def keyFits (i : Nat) (k : Int) : Prop :=
  0 ≤ 48 + k + ((i % 11 : Nat) : Int) ∧ 48 + k + ((i % 11 : Nat) : Int) < 65536

instance (i : Nat) (k : Int) : Decidable (keyFits i k) := by
  unfold keyFits; infer_instance

lemma is_bwp_eq_false_iff (s : List Nat) : is_bwp s = false ↔ s.head? ≠ some MARKER := by
  cases s with
  | nil => simp [is_bwp]
  | cons c t => simp [is_bwp]

lemma decode_of_no_marker (s : List Nat) (h : s.head? ≠ some MARKER) :
    decode s = Except.ok ⟨s, false, [], s, 0⟩ := by
  unfold decode
  simp [h]

lemma decode_with_marker (data : List Nat) (c1 : Nat) (h0 : data.head? = some MARKER)
    (h1 : data.get? 1 = some c1) :
    decode data =
      match readKeysAux data 0 ((c1 : Int) - 48).toNat with
      | Except.error e => Except.error e
      | Except.ok keys =>
        if pySliceFrom data (2 + ((c1 : Int) - 48)) ≠ [] ∧ keys = [] then
          Except.error PyErr.zeroDivisionError
        else
          Except.ok ⟨data, true, keys,
            decodeBodyAux keys 0 (pySliceFrom data (2 + ((c1 : Int) - 48))),
            2 + ((c1 : Int) - 48)⟩ := by
  unfold decode
  rw [if_neg (by simp [h0]), h1]

lemma readKeysAux_past_end (data : List Nat) :
    ∀ (n i : Nat), 1 ≤ n → data.length < 2 + i + n →
      readKeysAux data i n = Except.error PyErr.indexError := by
  intro n
  induction n with
  | zero => omega
  | succ m ih =>
    intro i _ hlen
    unfold readKeysAux
    cases hg : data.get? (2 + i) with
    | none => simp
    | some c =>
      have hlt : 2 + i < data.length := (List.get?_eq_some.mp hg).1
      have hm : 1 ≤ m := by omega
      rw [ih (i + 1) hm (by omega)]

lemma readKeysAux_ok_length (data : List Nat) :
    ∀ (n i : Nat) (ks : List Int), readKeysAux data i n = Except.ok ks → ks.length = n := by
  intro n
  induction n with
  | zero =>
    intro i ks h
    unfold readKeysAux at h
    cases h
    rfl
  | succ m ih =>
    intro i ks h
    unfold readKeysAux at h
    cases hg : data.get? (2 + i) with
    | none => rw [hg] at h; cases h
    | some c =>
      rw [hg] at h
      cases hr : readKeysAux data (i + 1) m with
      | error e => rw [hr] at h; cases h
      | ok rest =>
        rw [hr] at h
        cases h
        simp [ih (i + 1) rest hr]

lemma readKeysAux_ok_bound (data : List Nat) :
    ∀ (n i : Nat) (ks : List Int), readKeysAux data i n = Except.ok ks →
      n = 0 ∨ 2 + i + n ≤ data.length := by
  intro n
  induction n with
  | zero => intro i ks _; exact Or.inl rfl
  | succ m ih =>
    intro i ks h
    unfold readKeysAux at h
    cases hg : data.get? (2 + i) with
    | none => rw [hg] at h; cases h
    | some c =>
      rw [hg] at h
      cases hr : readKeysAux data (i + 1) m with
      | error e => rw [hr] at h; cases h
      | ok rest =>
        have hlt : 2 + i < data.length := (List.get?_eq_some.mp hg).1
        rcases ih (i + 1) rest hr with h0 | hle
        · right; omega
        · right; omega

lemma decodeBodyAux_length (keys : List Int) :
    ∀ (body : List Nat) (i : Nat), (decodeBodyAux keys i body).length = body.length := by
  intro body
  induction body with
  | nil => intro i; rfl
  | cons c rest ih => intro i; simp [decodeBodyAux, ih]

lemma pySliceFrom_of_nonneg (l : List Nat) (i : Int) (h : 0 ≤ i) :
    pySliceFrom l i = l.drop i.toNat := if_pos h

lemma pySliceFrom_ne_nil (l : List Nat) (i : Int) (hi : i < (l.length : Int))
    (hl : 1 ≤ l.length) : pySliceFrom l i ≠ [] := by
  unfold pySliceFrom
  split <;> (rw [ne_eq, List.drop_eq_nil_iff]; omega)

example : decode [164, 49, 48, 116, 101, 115, 116] =
    Except.ok ⟨[164, 49, 48, 116, 101, 115, 116], true, [0], [116, 102, 117, 119], 3⟩ := by
  decide

example : decode [112, 108, 97, 105, 110] =
    Except.ok ⟨[112, 108, 97, 105, 110], false, [], [112, 108, 97, 105, 110], 0⟩ := by
  decide

example : decode [164, 53, 97, 98] = Except.error PyErr.indexError := by decide

example : decode [164, 48, 97] = Except.error PyErr.zeroDivisionError := by decide

example : encode [] [0] = Except.ok [] := by decide

example : encode [116, 101, 115, 116] [0] =
    Except.ok [164, 49, 48, 116, 100, 113, 113] := by decide

lemma readKeysAux_succ (data : List Nat) (i n : Nat) :
    readKeysAux data i (n + 1) =
      match data.get? (2 + i) with
      | none => Except.error PyErr.indexError
      | some c =>
        match readKeysAux data (i + 1) n with
        | Except.error e => Except.error e
        | Except.ok rest =>
            Except.ok (((c : Int) - 48 - ((i % 11 : Nat) : Int)) :: rest) := rfl

lemma encodeKeysAux_length (ks : List Int) : ∀ i : Nat, (encodeKeysAux i ks).length = ks.length := by
  induction ks with
  | nil => intro i; rfl
  | cons k rest ih => intro i; simp [encodeKeysAux, ih]

lemma readKeysAux_encode (ks : List Int) :
    ∀ (i : Nat) (front tail : List Nat),
      front.length = 2 + i →
      (∀ j k, ks.get? j = some k → keyFits (i + j) k) →
      readKeysAux (front ++ (encodeKeysAux i ks ++ tail)) i ks.length = Except.ok ks := by
  induction ks with
  | nil => intro i front tail _ _; rfl
  | cons k rest ih =>
    intro i front tail hfront hfit
    have hfit0 : keyFits i k := by simpa using hfit 0 k rfl
    rw [show (k :: rest).length = rest.length + 1 from rfl, readKeysAux_succ]
    have hget : (front ++ (encodeKeysAux i (k :: rest) ++ tail)).get? (2 + i) =
        some (((48 + k + ((i % 11 : Nat) : Int)) % 65536).toNat) := by
      rw [← hfront, List.get?_append_right (le_refl front.length)]
      simp [encodeKeysAux]
    have hrec : readKeysAux (front ++ (encodeKeysAux i (k :: rest) ++ tail)) (i + 1) rest.length
        = Except.ok rest := by
      have hassoc : front ++ (encodeKeysAux i (k :: rest) ++ tail)
          = (front ++ [((48 + k + ((i % 11 : Nat) : Int)) % 65536).toNat])
              ++ (encodeKeysAux (i + 1) rest ++ tail) := by
        simp [encodeKeysAux]
      rw [hassoc]
      apply ih (i + 1)
      · simp [hfront]; omega
      · intro j k2 hj
        have hstep := hfit (j + 1) k2 (by simpa using hj)
        have heq : i + (j + 1) = (i + 1) + j := by omega
        rwa [heq] at hstep
    have hval : ((((48 + k + ((i % 11 : Nat) : Int)) % 65536).toNat : Int) - 48
        - ((i % 11 : Nat) : Int)) = k := by
      obtain ⟨hA, hB⟩ := hfit0
      omega
    simp only [hget, hrec, hval]

lemma body_roundtrip (keys : List Int) :
    ∀ (body : List Nat) (i : Nat), (∀ c ∈ body, c < 65536) →
      decodeBodyAux keys i (encodeBodyAux keys i body) = body := by
  intro body
  induction body with
  | nil => intro i _; rfl
  | cons c rest ih =>
    intro i hc
    have hc0 : c < 65536 := hc c (by simp)
    have hrest : ∀ x ∈ rest, x < 65536 := fun x hx => hc x (by simp [hx])
    simp only [encodeBodyAux, decodeBodyAux]
    rw [ih (i + 1) hrest]
    congr 1
    omega

lemma decode_encoded (data : List Nat) (keys : List Int)
    (h16 : ∀ c ∈ data, c < 65536) (hk : keys ≠ [])
    (hfit : ∀ j k, keys.get? j = some k → keyFits j k) :
    decode (MARKER :: (48 + keys.length) :: (encodeKeysAux 0 keys ++ encodeBodyAux keys 0 data))
      = Except.ok ⟨MARKER :: (48 + keys.length)
            :: (encodeKeysAux 0 keys ++ encodeBodyAux keys 0 data),
          true, keys, data, 2 + (keys.length : Int)⟩ := by
  rw [decode_with_marker (MARKER :: (48 + keys.length)
    :: (encodeKeysAux 0 keys ++ encodeBodyAux keys 0 data)) (48 + keys.length) rfl rfl]
  have hkc : (((48 + keys.length : Nat) : Int) - 48) = (keys.length : Int) := by
    push_cast
    ring
  rw [hkc]
  have htn : ((keys.length : Int)).toNat = keys.length := by omega
  rw [htn]
  have hkeys : readKeysAux (MARKER :: (48 + keys.length)
        :: (encodeKeysAux 0 keys ++ encodeBodyAux keys 0 data)) 0 keys.length
      = Except.ok keys := by
    have hmain := readKeysAux_encode keys 0 [MARKER, 48 + keys.length]
      (encodeBodyAux keys 0 data) rfl (by intro j k hj; simpa using hfit j k hj)
    simpa using hmain
  have hslice : pySliceFrom (MARKER :: (48 + keys.length)
        :: (encodeKeysAux 0 keys ++ encodeBodyAux keys 0 data)) (2 + (keys.length : Int))
      = encodeBodyAux keys 0 data := by
    rw [pySliceFrom_of_nonneg _ _ (by omega)]
    have htn2 : (2 + (keys.length : Int)).toNat = 2 + keys.length := by omega
    rw [htn2, show 2 + keys.length = keys.length + 1 + 1 from by omega,
      List.drop_succ_cons, List.drop_succ_cons, ← encodeKeysAux_length keys 0,
      List.drop_left]
  simp only [hkeys, hslice]
  rw [if_neg (by intro hcontra; exact hk hcontra.2)]
  rw [body_roundtrip keys data 0 h16]

/-- C5: is_bwp s is true if and only if s is non-empty and the code point
of its first code unit equals 164; in particular is_bwp of the empty
string is false. -/
theorem c5_detection :
    (∀ s : List Nat, is_bwp s = true ↔ s ≠ [] ∧ s.head? = some 164) ∧
      is_bwp [] = false := by
  constructor
  · intro s
    cases s with
    | nil => simp [is_bwp]
    | cons c t => simp [is_bwp, MARKER]
  · rfl

/-- C6: for every s not satisfying is_bwp (including the empty string),
decode returns a normal (non-error) message with is_encoded false,
decoded equal to s, keys empty and header_length 0. -/
theorem c6_pass_through (s : List Nat) (h : is_bwp s = false) :
    decode s = Except.ok ⟨s, false, [], s, 0⟩ :=
  decode_of_no_marker s ((is_bwp_eq_false_iff s).mp h)

theorem c6_pass_through_witness :
    is_bwp (strCodes "plain,text") = false ∧
      decode (strCodes "plain,text") =
        Except.ok ⟨strCodes "plain,text", false, [], strCodes "plain,text", 0⟩ :=
  ⟨by decide, c6_pass_through (strCodes "plain,text") (by decide)⟩

/-- C10: for every input not detected as BWP-encoded, analyze reports
exactly the detection flag and the input length; every other field of the
report (key count, keys, header length, body length, decoded length,
decoded preview, decode success, decode error) is absent. -/
theorem c10_analyze_not_bwp (s : List Nat) (h : is_bwp s = false) :
    analyze s = ⟨false, s.length, none, none, none, none, none, none, none, none⟩ := by
  unfold analyze
  simp [h]

theorem c10_analyze_not_bwp_witness :
    analyze (strCodes "plain,text") =
      ⟨false, (strCodes "plain,text").length, none, none, none, none, none, none,
        none, none⟩ :=
  c10_analyze_not_bwp (strCodes "plain,text") (by decide)

/-- C4: analyze never propagates a decoding fault: whenever decode raises,
analyze still returns a report, with decode_success false and the fault
captured in decode_error as the diagnostic. -/
theorem c4_analyze_captures (s : List Nat) (e : PyErr) (h : decode s = Except.error e) :
    (analyze s).decode_success = some false ∧ (analyze s).decode_error = some e := by
  have hb : is_bwp s = true := by
    by_contra hb
    rw [Bool.not_eq_true] at hb
    rw [decode_of_no_marker s ((is_bwp_eq_false_iff s).mp hb)] at h
    cases h
  unfold analyze
  simp [hb, h]

theorem c4_analyze_captures_witness :
    (analyze [164, 53, 97, 98]).decode_success = some false ∧
      (analyze [164, 53, 97, 98]).decode_error = some PyErr.indexError :=
  c4_analyze_captures [164, 53, 97, 98] PyErr.indexError (by decide)

theorem c2_counterexample : decode [164, 53, 97, 98] = Except.error PyErr.indexError := by
  decide

/-- C2 (amended): when the declared key count is positive and implies
reading past the end of the input while collecting keys (that is,
2 + keyCount > len(input)), decode raises the unguarded out-of-range
fault IndexError; no typed MalformedHeader error exists in the code.  In
particular decode of chr(164) + chr(48+5) + "ab" raises IndexError. -/
theorem c2_amended (data : List Nat) (c1 : Nat) (h0 : data.head? = some 164)
    (h1 : data.get? 1 = some c1) (hk : 1 ≤ (c1 : Int) - 48)
    (hlen : (data.length : Int) < 2 + ((c1 : Int) - 48)) :
    decode data = Except.error PyErr.indexError := by
  rw [decode_with_marker data c1 (by simpa [MARKER] using h0) h1]
  rw [readKeysAux_past_end data ((c1 : Int) - 48).toNat 0 (by omega) (by omega)]

theorem c2_amended_witness :
    ([164, 53, 97, 98] : List Nat).head? = some 164 ∧
      ([164, 53, 97, 98] : List Nat).get? 1 = some 53 ∧
      decode [164, 53, 97, 98] = Except.error PyErr.indexError :=
  ⟨by decide, by decide,
    c2_amended [164, 53, 97, 98] 53 (by decide) (by decide) (by decide) (by decide)⟩

theorem c3_counterexample : decode [164, 48, 97] = Except.error PyErr.zeroDivisionError := by
  decide

/-- C3 (amended): when the header declares keyCount 0 (code unit 48 at
position 1) and the remaining body is non-empty, decode raises the
unguarded ZeroDivisionError from the per-position lookup keys[i % 0]; no
typed EmptyKeySet error exists in the code. -/
theorem c3_amended (data : List Nat) (h0 : data.head? = some 164)
    (h1 : data.get? 1 = some 48) (hlen : 2 < data.length) :
    decode data = Except.error PyErr.zeroDivisionError := by
  rw [decode_with_marker data 48 (by simpa [MARKER] using h0) h1]
  have hread : readKeysAux data 0 0 = Except.ok [] := rfl
  have hbody : pySliceFrom data 2 ≠ [] := pySliceFrom_ne_nil data 2 (by omega) (by omega)
  simp [hread, hbody]

theorem c3_amended_witness :
    ([164, 48, 97] : List Nat).get? 1 = some 48 ∧
      decode [164, 48, 97] = Except.error PyErr.zeroDivisionError :=
  ⟨by decide, c3_amended [164, 48, 97] (by decide) (by decide) (by decide)⟩

theorem c1_counterexample :
    ¬ (∀ (data : List Nat) (keys : List Int), 1 ≤ keys.length →
        (∀ c ∈ data, c < 65536) →
        ∀ enc msg, encode data keys = Except.ok enc → decode enc = Except.ok msg →
          msg.decoded = data ∧ msg.keys = keys) := by
  intro hclaim
  have h := hclaim [] [0] (by decide) (by decide) [] ⟨[], false, [], [], 0⟩
    (by decide) (by decide)
  exact absurd h.2 (by decide)

/-- C1 (amended): for every NON-EMPTY input of 16-bit code units and every
key list keys with 1 ≤ len(keys) and len(keys) + 48 < 65536 whose every
key fits the 16-bit header cell at its position (0 ≤ 48 + key[i] +
(i % 11) < 65536), decode(encode(input, keys)) succeeds with decoded
equal to input, keys equal to keys, and is_encoded true.  For empty input
encode returns the input unchanged, so decode reports keys = [] and the
original claim fails; keys outside the stated bounds are also changed by
the 16-bit mask in the header. -/
theorem c1_roundtrip (data : List Nat) (keys : List Int)
    (hne : data ≠ [])
    (h16 : ∀ c ∈ data, c < 65536)
    (hk : 1 ≤ keys.length)
    (hcount : (keys.length : Int) + 48 < 65536)
    (hfit : ∀ i ∈ List.range keys.length, keyFits i (keys.getD i 0)) :
    ∃ enc msg, encode data keys = Except.ok enc ∧ decode enc = Except.ok msg ∧
      msg.decoded = data ∧ msg.keys = keys ∧ msg.is_encoded = true := by
  have hkne : keys ≠ [] := by
    intro hcontra
    rw [hcontra] at hk
    simp at hk
  have hcnt : ((48 + (keys.length : Int)) % 65536).toNat = 48 + keys.length := by omega
  have hencode : encode data keys = Except.ok (MARKER :: (48 + keys.length)
      :: (encodeKeysAux 0 keys ++ encodeBodyAux keys 0 data)) := by
    unfold encode
    rw [if_neg hne, if_neg hkne, hcnt]
  have hfit2 : ∀ j k, keys.get? j = some k → keyFits j k := by
    intro j k hj
    have hjlt : j < keys.length := (List.get?_eq_some.mp hj).1
    have hval : keys.getD j 0 = k := by
      rw [List.getD_eq_getElem?_getD, ← List.get?_eq_getElem?, hj]
      rfl
    have hmem := hfit j (List.mem_range.mpr hjlt)
    rwa [hval] at hmem
  exact ⟨_, _, hencode, decode_encoded data keys h16 hkne hfit2, rfl, rfl, rfl⟩

theorem c1_roundtrip_witness :
    ∃ enc msg, encode [116, 101, 115, 116] [5, 10, 3, 7] = Except.ok enc ∧
      decode enc = Except.ok msg ∧
      msg.decoded = [116, 101, 115, 116] ∧ msg.keys = [5, 10, 3, 7] ∧
      msg.is_encoded = true :=
  c1_roundtrip [116, 101, 115, 116] [5, 10, 3, 7] (by decide) (by decide) (by decide)
    (by decide) (by decide)

/-- C7: for every message decode successfully decodes as encoded, with the
body being raw[headerLength:], headerLength + len(body) equals len(raw),
headerLength equals 2 + len(keys), and len(decoded) equals len(body). -/
theorem c7_length_invariant (s : List Nat) (msg : BWPMessage)
    (h : decode s = Except.ok msg) (he : msg.is_encoded = true) :
    msg.raw = s ∧
      msg.header_length = 2 + (msg.keys.length : Int) ∧
      msg.header_length.toNat + (s.drop msg.header_length.toNat).length = s.length ∧
      msg.decoded.length = (s.drop msg.header_length.toNat).length := by
  by_cases h0 : s.head? = some MARKER
  · cases hg : s.get? 1 with
    | none =>
      unfold decode at h
      rw [if_neg (not_not_intro h0), hg] at h
      simp at h
    | some c1 =>
      rw [decode_with_marker s c1 h0 hg] at h
      set kc : Int := (c1 : Int) - 48 with hkc
      cases hr : readKeysAux s 0 kc.toNat with
      | error e => rw [hr] at h; simp at h
      | ok keys =>
        rw [hr] at h
        have h2 : (if pySliceFrom s (2 + kc) ≠ [] ∧ keys = [] then
            Except.error PyErr.zeroDivisionError
          else Except.ok (⟨s, true, keys, decodeBodyAux keys 0 (pySliceFrom s (2 + kc)),
            2 + kc⟩ : BWPMessage)) = Except.ok msg := h
        have hlen1 : 1 < s.length := (List.get?_eq_some.mp hg).1
        have hkeysLen : keys.length = kc.toNat := readKeysAux_ok_length s kc.toNat 0 keys hr
        by_cases hguard : pySliceFrom s (2 + kc) ≠ [] ∧ keys = []
        · rw [if_pos hguard] at h2; simp at h2
        · rw [if_neg hguard] at h2
          injection h2 with h2
          subst h2
          have hkcpos : 0 ≤ kc := by
            by_contra hneg
            push_neg at hneg
            have hkeys0 : keys = [] := List.length_eq_zero.mp (by omega)
            exact hguard ⟨pySliceFrom_ne_nil s (2 + kc) (by omega) (by omega), hkeys0⟩
          have hbound := readKeysAux_ok_bound s kc.toNat 0 keys hr
          have hle : (2 + kc).toNat ≤ s.length := by
            rcases hbound with h0n | hb <;> omega
          refine ⟨rfl, ?_, ?_, ?_⟩
          · show (2 + kc) = 2 + (keys.length : Int)
            rw [hkeysLen]
            omega
          · show (2 + kc).toNat + (s.drop (2 + kc).toNat).length = s.length
            rw [List.length_drop]
            omega
          · show (decodeBodyAux keys 0 (pySliceFrom s (2 + kc))).length =
              (s.drop (2 + kc).toNat).length
            rw [pySliceFrom_of_nonneg s (2 + kc) (by omega),
              decodeBodyAux_length keys (s.drop (2 + kc).toNat) 0]
  · rw [decode_of_no_marker s h0] at h
    injection h with h
    subst h
    simp at he

theorem c7_length_invariant_witness :
    BWPMessage.raw ⟨[164, 49, 48, 116, 101, 115, 116], true, [0], [116, 102, 117, 119], 3⟩ =
        [164, 49, 48, 116, 101, 115, 116] ∧
      BWPMessage.header_length
          ⟨[164, 49, 48, 116, 101, 115, 116], true, [0], [116, 102, 117, 119], 3⟩ =
        2 + (([0] : List Int).length : Int) ∧
      (3 : Int).toNat +
          (([164, 49, 48, 116, 101, 115, 116] : List Nat).drop (3 : Int).toNat).length = 7 ∧
      ([116, 102, 117, 119] : List Nat).length =
        (([164, 49, 48, 116, 101, 115, 116] : List Nat).drop (3 : Int).toNat).length := by
  have := c7_length_invariant [164, 49, 48, 116, 101, 115, 116]
    ⟨[164, 49, 48, 116, 101, 115, 116], true, [0], [116, 102, 117, 119], 3⟩
    (by decide) (by decide)
  exact this

lemma head?_filter_eq_find? (p : List Nat → Bool) (l : List (List Nat)) :
    (l.filter p).head? = l.find? p := by
  induction l with
  | nil => rfl
  | cons a t ih =>
    cases h : p a <;> simp [List.filter_cons, List.find?_cons, h, ih]

theorem c8_counterexample :
    quotedLiterals ([34] ++ strCodes "setFoo" ++ [34]) = [strCodes "setFoo"] ∧
      specMethodRule (strCodes "setFoo") = true ∧
      specMethodField ([34] ++ strCodes "setFoo" ++ [34]) = some (strCodes "setFoo") ∧
      methodField ([34] ++ strCodes "setFoo" ++ [34]) = none := by
  exact ⟨by decide, by decide, by decide, by decide⟩

/-- C8 (amended): the extracted method name is the first non-empty quoted
literal starting with one of the verb roots get, load, find, save,
connect, subscribe, init, recherche, charger, lire; the first match wins
and the field is absent when no literal matches.  Unlike the original
claim, there is no length-below-30 filter, no namespace-root exclusion,
and no set verb root. -/
theorem c8_amended (text : List Nat) :
    methodField text = (quotedLiterals text).find?
      (fun s => !s.isEmpty && verbRoots.any (fun v => v.isPrefixOf s)) :=
  head?_filter_eq_find? methodCandidate (quotedLiterals text)

/-- C9: there is a bytes input whose first octet is 0xA4 (so the byte
overload of is_bwp accepts it) but whose UTF-8 decoding with replacement
starts with U+FFFD instead of the marker, so decode of the same bytes
returns a pass-through message with is_encoded false: the byte-based
detector and decode disagree on it. -/
theorem c9_bytes_vs_text :
    ∃ b : List Nat, (∀ x ∈ b, x < 256) ∧ b.head? = some 164 ∧
      is_bwp_bytes b = true ∧
      (utf8DecodeReplace b).head? = some 65533 ∧
      decode_bytes b =
        Except.ok ⟨utf8DecodeReplace b, false, [], utf8DecodeReplace b, 0⟩ := by
  have h1 : utf8DecodeReplace [164, 116] = [65533, 116] := by
    simp [utf8DecodeReplace, isCont]
  refine ⟨[164, 116], by decide, rfl, rfl, ?_, ?_⟩
  · rw [h1]
    rfl
  · show decode (utf8DecodeReplace [164, 116]) = _
    rw [h1]
    decide

end BWP
